import Mathlib

/-!
Verification of the k5js List engine (`packages/keystone/lib/List`, provided
as `src/unnamed/part_001`) against its natural-language specification.

The development shallowly embeds the relevant parts of the List class:
  * the naming deriver (`keyToLabel`, `labelToPath`, `labelToClass`,
    `preventInvalidUnderscorePrefix`, the `gqlNames` record built in the
    constructor, and the ambiguous-plural guard),
  * the query executor (`_itemsQuery`, `getAccessControlledItem`),
  * the access checks (`checkFieldAccess`),
  * the mutation pipeline (`_resolveRelationship`, `_resolveInput`,
    `_validateInput`, `_nestedMutation`),
  * the field-resolver wrapping (`_wrapFieldResolver`, `gqlFieldResolvers`).

JavaScript values are modelled with an explicit `undefined`/`null`
distinction, and JavaScript objects as association lists with
first-match lookup.  Asynchronous functions are modelled as pure
functions (the pipeline awaits every step, so each phase is sequential);
thrown errors are modelled with `Except`/`Option` results; where a claim
says "without invoking the adapter" the embedding additionally returns a
Boolean recording whether the adapter function was consulted.

The `pluralize` library is external to the repository and is kept
abstract (functions `sing`, `plur` passed as parameters); concrete
instantiations used in counterexamples mirror the library's documented
behaviour on the inputs involved.
-/

namespace K5

/-- A JavaScript value, as far as the List engine inspects it: the engine
only ever distinguishes `undefined`, `null` and "some other value"
(ids, scalars, hook results).  Other values are carried as strings. -/
inductive JVal where
  | undef : JVal
  | null : JVal
  | val : String → JVal
deriving DecidableEq, Repr

/-- A JavaScript object as seen by the engine: an association list of
key/value pairs, first match wins.  A key that is absent is distinct
from a key that is present with value `undefined`
(JS `hasOwnProperty` / the `in` operator see the difference). -/
abbrev JObj := List (String × JVal)

/-- JS `Object.prototype.hasOwnProperty.call(o, k)` / `k in o`. -/
def JObj.hasOwn (o : JObj) (k : String) : Bool :=
  o.any (fun p => p.1 == k)

/-- JS property read `o[k]`: `undefined` when the key is absent. -/
def JObj.get (o : JObj) (k : String) : JVal :=
  match o.find? (fun p => p.1 == k) with
  | some p => p.2
  | none => JVal.undef

/-- `omitBy(o, key => typeof o[key] === 'undefined')` from `@k5js/utils`:
drops every key whose value is `undefined`. -/
def JObj.omitUndef (o : JObj) : JObj :=
  o.filter (fun p => p.2 ≠ JVal.undef)

/-- JS spread merge `{...a, ...b}`: keys of `b` overwrite keys of `a`.
The overwritten entries are removed so that the association list keeps
one entry per key, as a JS object does. -/
def JObj.merge (a b : JObj) : JObj :=
  a.filter (fun p => ¬ b.hasOwn p.1) ++ b

/-! ## Naming deriver (constructor, lines 28-53 and 163-203 of the source) -/

/-- Split a character list at every character satisfying `p`, keeping
empty segments, as the JS `String.prototype.split` with a
single-character alternative regex does. -/
def splitChars (p : Char → Bool) : List Char → List (List Char)
  | [] => [[]]
  | c :: cs =>
    let r := splitChars p cs
    if p c then [] :: r
    else
      match r with
      | [] => [[c]]
      | s :: ss => (c :: s) :: ss

/-- `upcase`: first character upper-cased, rest unchanged. -/
def upcase (s : String) : String :=
  match s.toList with
  | [] => ""
  | c :: cs => String.mk (c.toUpper :: cs)

/-- The global regex replace `([a-z])([A-Z])` → `$1 $2`: a space is
inserted between a lowercase letter and the uppercase letter that
follows it. -/
def insertCamelSpaces : List Char → List Char
  | c1 :: c2 :: rest =>
    if c1.isLower ∧ c2.isUpper then c1 :: ' ' :: insertCamelSpaces (c2 :: rest)
    else c1 :: insertCamelSpaces (c2 :: rest)
  | l => l

/-- `keyToLabel`: camel-case split, then split on space/underscore/hyphen,
empty segments dropped, each segment title-cased, joined by spaces; a
leading underscore of the key is retained (auxiliary lists). -/
def keyToLabel (str : String) : String :=
  let segments :=
    ((splitChars (fun c => c = ' ' ∨ c = '_' ∨ c = '-')
        (insertCamelSpaces str.toList)).map String.mk).filter (fun s => s ≠ "")
  let label := String.intercalate " " (segments.map upcase)
  if str.toList.head? = some '_' then "_" ++ label else label

/-- `labelToPath`: spaces become hyphens, lower-cased. -/
def labelToPath (str : String) : String :=
  String.mk
    ((String.intercalate "-"
        ((splitChars (fun c => c = ' ') str.toList).map String.mk)).toList.map
      Char.toLower)

/-- `labelToClass`: all whitespace removed. -/
def labelToClass (str : String) : String :=
  String.mk (str.toList.filter (fun c => ¬ c.isWhitespace))

/-- `preventInvalidUnderscorePrefix`: a leading `__` collapses to `_`. -/
def preventInvalidUnderscorePrefix (s : String) : String :=
  if s.toList.take 2 = ['_', '_'] then s.drop 1 else s

/-- The `gqlNames` record assembled by the `List` constructor. -/
structure GqlNames where
  outputTypeName : String
  itemQueryName : String
  listQueryName : String
  listQueryMetaName : String
  listMetaName : String
  deleteMutationName : String
  updateMutationName : String
  createMutationName : String
  deleteManyMutationName : String
  updateManyMutationName : String
  createManyMutationName : String
  whereInputName : String
  whereUniqueInputName : String
  updateInputName : String
  createInputName : String
  updateManyInputName : String
  createManyInputName : String
  relateToManyInputName : String
  relateToOneInputName : String
deriving DecidableEq, Repr

/-- The optional naming overrides accepted by the constructor. -/
structure NamingOverrides where
  itemQueryName : Option String := none
  listQueryName : Option String := none
deriving Repr

/-- The naming part of the `List` constructor (source lines 163-203).
`sing`/`plur` abstract the external `pluralize` library.  The
constructor throws when the derived plural equals the derived label;
otherwise it assembles the `gqlNames` record from
`_itemQueryName = itemQueryName || labelToClass(_singular)` and
`_listQueryName = listQueryName || labelToClass(_plural)`. -/
def buildGqlNames (key : String) (sing plur : String → String)
    (ov : NamingOverrides) : Except String GqlNames :=
  let _label := keyToLabel key
  let _singular := sing _label
  let _plural := plur _label
  if _plural = _label then
    Except.error ("Unable to use " ++ _label ++
      " as a List name - it has an ambiguous plural (" ++ _plural ++
      "). Please choose another name for your list.")
  else
    let _itemQueryName := ov.itemQueryName.getD (labelToClass _singular)
    let _listQueryName := ov.listQueryName.getD (labelToClass _plural)
    Except.ok
      { outputTypeName := key
        itemQueryName := _itemQueryName
        listQueryName := "all" ++ _listQueryName
        listQueryMetaName := "_all" ++ _listQueryName ++ "Meta"
        listMetaName := preventInvalidUnderscorePrefix ("_" ++ _listQueryName ++ "Meta")
        deleteMutationName := "delete" ++ _itemQueryName
        updateMutationName := "update" ++ _itemQueryName
        createMutationName := "create" ++ _itemQueryName
        deleteManyMutationName := "delete" ++ _listQueryName
        updateManyMutationName := "update" ++ _listQueryName
        createManyMutationName := "create" ++ _listQueryName
        whereInputName := _itemQueryName ++ "WhereInput"
        whereUniqueInputName := _itemQueryName ++ "WhereUniqueInput"
        updateInputName := _itemQueryName ++ "UpdateInput"
        createInputName := _itemQueryName ++ "CreateInput"
        updateManyInputName := _listQueryName ++ "UpdateInput"
        createManyInputName := _listQueryName ++ "CreateInput"
        relateToManyInputName := _itemQueryName ++ "RelateToManyInput"
        relateToOneInputName := _itemQueryName ++ "RelateToOneInput" }

example : keyToLabel "BlogPost" = "Blog Post" := by decide
example : keyToLabel "_internalThing" = "_Internal Thing" := by decide
example : labelToClass "Blog Posts" = "BlogPosts" := by decide

end K5

namespace K5

/-- Claim C9, as stated, is false on the code: the constructor's guard
compares the derived *plural* against the derived *label* (`_plural ===
_label`), not against the derived singular.  For the key `"Users"` the
`pluralize` library returns plural `"Users"` and singular `"User"` (the
functions below mirror that behaviour on this input): the derived
singular and plural differ, yet construction throws the
naming-ambiguity error — contradicting "construction does not throw
this naming-ambiguity error for keys whose derived singular and plural
differ". -/
theorem ambiguousPlural_claim_counterexample :
    (fun (_ : String) => "User") (keyToLabel "Users") ≠
      (fun (s : String) => s) (keyToLabel "Users") ∧
    (buildGqlNames "Users" (fun _ => "User") (fun s => s) {}).toOption = none := by
  constructor
  · decide
  · decide

/-- Claim C9 (amended): `List` construction throws the naming-ambiguity
error exactly when the derived plural form equals the derived label of
the key; the `itemQueryName`/`listQueryName` overrides do not suppress
the check.  In particular construction succeeds whenever the derived
plural differs from the derived label. -/
theorem ambiguousPlural_guard (key : String) (sing plur : String → String)
    (ov : NamingOverrides) :
    (buildGqlNames key sing plur ov).toOption = none ↔
      plur (keyToLabel key) = keyToLabel key := by
  unfold buildGqlNames
  by_cases h : plur (keyToLabel key) = keyToLabel key <;>
    simp [h, Except.toOption]

/-- Claim C8, as stated, is false on the code: the "many" mutation names
have no `Many` infix.  For key `"User"` (derived singular `User`,
derived plural `Users`), the constructor produces
`createManyMutationName = "createUsers"`, not `"createManyUsers"` as
the claim's `createMany<Plural>` formula predicts. -/
theorem gqlNames_claim_counterexample :
    (buildGqlNames "User" (fun s => s) (fun s => s ++ "s") {}).toOption.map
        GqlNames.createManyMutationName = some "createUsers" ∧
    "createUsers" ≠ "createManyUsers" := by
  constructor
  · decide
  · decide

/-- Claim C8 (amended): for every list key and `pluralize` behaviour,
writing `S`/`P` for the derived (or overridden) singular/plural class
names, a successful construction yields exactly the name set
`all P`, `_all P Meta`, `_ P Meta` (with a leading double underscore
collapsed), `S`; mutations `create S`, `update S`, `delete S`,
`create P`, `update P`, `delete P`; inputs `S WhereInput`,
`S WhereUniqueInput`, `S UpdateInput`, `S CreateInput`, `P UpdateInput`,
`P CreateInput` (plus the relationship input names and the output type
name, which is the key itself) — all deterministic in the key and the
overrides. -/
theorem gqlNames_contract (key : String) (sing plur : String → String)
    (ov : NamingOverrides)
    (h : plur (keyToLabel key) ≠ keyToLabel key) :
    buildGqlNames key sing plur ov =
      Except.ok
        { outputTypeName := key
          itemQueryName := ov.itemQueryName.getD (labelToClass (sing (keyToLabel key)))
          listQueryName := "all" ++ ov.listQueryName.getD (labelToClass (plur (keyToLabel key)))
          listQueryMetaName :=
            "_all" ++ ov.listQueryName.getD (labelToClass (plur (keyToLabel key))) ++ "Meta"
          listMetaName :=
            preventInvalidUnderscorePrefix
              ("_" ++ ov.listQueryName.getD (labelToClass (plur (keyToLabel key))) ++ "Meta")
          deleteMutationName :=
            "delete" ++ ov.itemQueryName.getD (labelToClass (sing (keyToLabel key)))
          updateMutationName :=
            "update" ++ ov.itemQueryName.getD (labelToClass (sing (keyToLabel key)))
          createMutationName :=
            "create" ++ ov.itemQueryName.getD (labelToClass (sing (keyToLabel key)))
          deleteManyMutationName :=
            "delete" ++ ov.listQueryName.getD (labelToClass (plur (keyToLabel key)))
          updateManyMutationName :=
            "update" ++ ov.listQueryName.getD (labelToClass (plur (keyToLabel key)))
          createManyMutationName :=
            "create" ++ ov.listQueryName.getD (labelToClass (plur (keyToLabel key)))
          whereInputName :=
            ov.itemQueryName.getD (labelToClass (sing (keyToLabel key))) ++ "WhereInput"
          whereUniqueInputName :=
            ov.itemQueryName.getD (labelToClass (sing (keyToLabel key))) ++ "WhereUniqueInput"
          updateInputName :=
            ov.itemQueryName.getD (labelToClass (sing (keyToLabel key))) ++ "UpdateInput"
          createInputName :=
            ov.itemQueryName.getD (labelToClass (sing (keyToLabel key))) ++ "CreateInput"
          updateManyInputName :=
            ov.listQueryName.getD (labelToClass (plur (keyToLabel key))) ++ "UpdateInput"
          createManyInputName :=
            ov.listQueryName.getD (labelToClass (plur (keyToLabel key))) ++ "CreateInput"
          relateToManyInputName :=
            ov.itemQueryName.getD (labelToClass (sing (keyToLabel key))) ++ "RelateToManyInput"
          relateToOneInputName :=
            ov.itemQueryName.getD (labelToClass (sing (keyToLabel key))) ++ "RelateToOneInput" } := by
  unfold buildGqlNames
  simp [h]

/-- Witness for `gqlNames_contract` at the key `"User"` with plural
formed by appending `"s"`: the hypothesis holds and the record is the
expected one. -/
theorem gqlNames_contract_witness :
    buildGqlNames "User" (fun s => s) (fun s => s ++ "s") {} =
      Except.ok
        { outputTypeName := "User"
          itemQueryName := "User"
          listQueryName := "allUsers"
          listQueryMetaName := "_allUsersMeta"
          listMetaName := "_UsersMeta"
          deleteMutationName := "deleteUser"
          updateMutationName := "updateUser"
          createMutationName := "createUser"
          deleteManyMutationName := "deleteUsers"
          updateManyMutationName := "updateUsers"
          createManyMutationName := "createUsers"
          whereInputName := "UserWhereInput"
          whereUniqueInputName := "UserWhereUniqueInput"
          updateInputName := "UserUpdateInput"
          createInputName := "UserCreateInput"
          updateManyInputName := "UsersUpdateInput"
          createManyInputName := "UsersCreateInput"
          relateToManyInputName := "UserRelateToManyInput"
          relateToOneInputName := "UserRelateToOneInput" } := by
  have h : (fun (s : String) => s ++ "s") (keyToLabel "User") ≠ keyToLabel "User" := by decide
  rw [gqlNames_contract "User" (fun s => s) (fun s => s ++ "s") {} h]
  rfl

/-! ## Items, access-denied errors, field-resolver wrapping -/

/-- An item as the engine sees it: an `id` plus its field values. -/
structure Item where
  id : String
  fields : JObj := []
deriving DecidableEq, Repr

/-- The structured data carried by `throwAccessDenied` (from
`graphqlErrors`): the item id and/or the aggregated restricted field
paths.  There is no "not found" variant anywhere in the engine. -/
structure AccessDeniedData where
  itemId : Option String := none
  restrictedFields : Option (List String) := none
deriving DecidableEq, Repr

/-- `_wrapFieldResolver` (source lines 505-533): wraps an output-field
resolver with a per-item field-level read access check
(`context.getFieldAccessControlForUser(key, path, undefined, item,
'read')`); on denial it throws access-denied carrying the item id,
otherwise it runs the inner resolver.  (The static cache-hint
side-effect on `info.cacheControl` is not modelled; it does not affect
the resolved value.) -/
def wrapFieldResolver (fieldPath : String)
    (getFieldAccess : String → Item → Bool)
    (innerResolver : Item → JVal) : Item → Except AccessDeniedData JVal :=
  fun item =>
    if getFieldAccess fieldPath item then Except.ok (innerResolver item)
    else Except.error { itemId := some item.id }

/-- A field as `gqlFieldResolvers` consumes it: its path, the static
read-access bit for the schema variant, and its (possibly multiple)
output-field resolvers keyed by output name. -/
structure OField where
  path : String
  readAccess : Bool
  outputResolvers : List (String × (Item → JVal))

/-- `gqlFieldResolvers` (source lines 535-555): empty when the schema
variant has no read access; otherwise the synthetic `_label_` resolver
is the list's `labelResolver` taken directly (the source comment notes
it circumvents access control), and every readable field's output
resolvers are wrapped with `_wrapFieldResolver`. -/
def gqlFieldResolvers (schemaReadAccess : Bool) (labelResolver : Item → JVal)
    (fields : List OField) (getFieldAccess : String → Item → Bool) :
    List (String × (Item → Except AccessDeniedData JVal)) :=
  if ¬ schemaReadAccess then []
  else
    ("_label_", fun item => Except.ok (labelResolver item)) ::
      (fields.filter (fun f => f.readAccess)).flatMap
        (fun f =>
          f.outputResolvers.map
            (fun pr => (pr.1, wrapFieldResolver f.path getFieldAccess pr.2)))

/-- Claim C10: with truthy read access, every readable field's output
resolver appears wrapped with the per-item field-level read check —
denial yields an access-denied error carrying the item id, permission
runs the inner resolver — while the synthetic `_label_` resolver is the
`labelResolver` invoked directly with no access check (it succeeds even
under an all-denying access function); with falsy read access no
resolvers are produced. -/
theorem gqlFieldResolvers_spec (labelResolver : Item → JVal)
    (fields : List OField) (getFieldAccess : String → Item → Bool) :
    gqlFieldResolvers false labelResolver fields getFieldAccess = [] ∧
    (gqlFieldResolvers true labelResolver fields getFieldAccess).head? =
      some ("_label_", fun item => Except.ok (labelResolver item)) ∧
    (∀ f ∈ fields, f.readAccess = true → ∀ pr ∈ f.outputResolvers,
      (pr.1, wrapFieldResolver f.path getFieldAccess pr.2) ∈
        gqlFieldResolvers true labelResolver fields getFieldAccess ∧
      (∀ item, getFieldAccess f.path item = false →
        wrapFieldResolver f.path getFieldAccess pr.2 item =
          Except.error { itemId := some item.id }) ∧
      (∀ item, getFieldAccess f.path item = true →
        wrapFieldResolver f.path getFieldAccess pr.2 item =
          Except.ok (pr.2 item))) := by
  refine ⟨by simp [gqlFieldResolvers], by simp [gqlFieldResolvers], ?_⟩
  intro f hf hread pr hpr
  refine ⟨?_, ?_, ?_⟩
  · simp only [gqlFieldResolvers, not_true, if_false]
    right
    exact List.mem_flatMap.mpr
      ⟨f, by simp [List.mem_filter, hf, hread], List.mem_map.mpr ⟨pr, hpr, rfl⟩⟩
  · intro item hdeny
    simp [wrapFieldResolver, hdeny]
  · intro item hallow
    simp [wrapFieldResolver, hallow]

/-- Witness for `gqlFieldResolvers_spec`: a single field `name` with one
resolver; its wrapped resolver is in the output, denies with the item
id under a denying access function, and resolves under a permitting
one. -/
theorem gqlFieldResolvers_spec_witness :
    (let f : OField :=
      { path := "name", readAccess := true,
        outputResolvers := [("name", fun item => item.fields.get "name")] }
     ({ path := "name", readAccess := true,
        outputResolvers := [("name", fun item => item.fields.get "name")] } : OField) ∈ [f] ∧
     (wrapFieldResolver "name" (fun _ _ => false) (fun item => item.fields.get "name"))
         { id := "i1", fields := [("name", JVal.val "Ada")] } =
       Except.error { itemId := some "i1" } ∧
     (wrapFieldResolver "name" (fun _ _ => true) (fun item => item.fields.get "name"))
         { id := "i1", fields := [("name", JVal.val "Ada")] } =
       Except.ok (JVal.val "Ada")) := by
  have h1 := gqlFieldResolvers_spec (fun item => item.fields.get "_label_")
    [{ path := "name", readAccess := true,
       outputResolvers := [("name", fun item => item.fields.get "name")] }]
    (fun _ _ => false)
  have h2 := gqlFieldResolvers_spec (fun item => item.fields.get "_label_")
    [{ path := "name", readAccess := true,
       outputResolvers := [("name", fun item => item.fields.get "name")] }]
    (fun _ _ => true)
  refine ⟨List.mem_singleton.mpr rfl, ?_, ?_⟩
  · exact ((h1.2.2 _ (List.mem_singleton.mpr rfl) rfl _
      (List.mem_singleton.mpr rfl)).2.1 _ rfl)
  · exact ((h2.2.2 _ (List.mem_singleton.mpr rfl) rfl _
      (List.mem_singleton.mpr rfl)).2.2 _ rfl)

/-! ## getAccessControlledItem (source lines 685-731) -/

/-- A declarative access rule restricted to the item-identity filters
the single-item loader inspects (`access === true` is all fields
absent).  A present field is modelled as truthy — filter ids are
non-empty strings. -/
structure IdAccess where
  id : Option String := none
  id_not : Option String := none
  id_in : Option (List String) := none
  id_not_in : Option (List String) := none

/-- The id-exclusion test at the top of `getAccessControlledItem`:
`(access.id && access.id !== id) || (access.id_not && access.id_not ===
id) || (access.id_in && !access.id_in.includes(id)) ||
(access.id_not_in && access.id_not_in.includes(id))`. -/
def idExcluded (access : IdAccess) (id : String) : Bool :=
  (match access.id with | some a => a ≠ id | none => false) ||
  (match access.id_not with | some a => a = id | none => false) ||
  (match access.id_in with | some l => ¬ l.contains id | none => false) ||
  (match access.id_not_in with | some l => l.contains id | none => false)

/-- `getAccessControlledItem`: when the id is excluded by the access
filter, throw access-denied without querying; otherwise run the adapter
query (`_itemsQuery({first: 1, where: {...access, id}})`, abstracted as
`adapterQuery`, returning the first item if any) and throw the same
access-denied error when no item comes back.  The first component
records whether the adapter was consulted. -/
def getAccessControlledItem (access : IdAccess) (id : String)
    (adapterQuery : IdAccess → String → Option Item) :
    Bool × Except AccessDeniedData Item :=
  if idExcluded access id then
    (false, Except.error { itemId := some id })
  else
    match adapterQuery access id with
    | some item => (true, Except.ok item)
    | none => (true, Except.error { itemId := some id })

/-- Claim C7: if the id is excluded by the access filter — a present
`access.id` differing from the id, the id equalling a present
`access.id_not`, the id absent from a present `access.id_in`, or the id
present in a present `access.id_not_in` — the call raises access-denied
without issuing any adapter query; and when the query is issued but
returns no item, the very same access-denied error is raised (the
result type has no "not found" alternative, so a missing item is
indistinguishable from an authorization failure). -/
theorem getAccessControlledItem_spec (access : IdAccess) (id : String)
    (adapterQuery : IdAccess → String → Option Item) :
    (((∃ a, access.id = some a ∧ a ≠ id) ∨
      access.id_not = some id ∨
      (∃ l, access.id_in = some l ∧ id ∉ l) ∨
      (∃ l, access.id_not_in = some l ∧ id ∈ l)) →
      getAccessControlledItem access id adapterQuery =
        (false, Except.error { itemId := some id })) ∧
    (idExcluded access id = false → adapterQuery access id = none →
      getAccessControlledItem access id adapterQuery =
        (true, Except.error { itemId := some id })) := by
  constructor
  · intro h
    have hex : idExcluded access id = true := by
      unfold idExcluded
      rcases h with ⟨a, ha, hne⟩ | h | ⟨l, hl, hni⟩ | ⟨l, hl, hi⟩ <;> simp_all
    simp [getAccessControlledItem, hex]
  · intro hnx hnone
    simp [getAccessControlledItem, hnx, hnone]

/-- Witness for `getAccessControlledItem_spec`: an `id_in` filter not
containing the requested id short-circuits without querying, and a
filter that passes combined with an empty adapter result still yields
access-denied. -/
theorem getAccessControlledItem_spec_witness :
    getAccessControlledItem { id_in := some ["a", "b"] } "x" (fun _ _ => some { id := "x" }) =
      (false, Except.error { itemId := some "x" }) ∧
    getAccessControlledItem { id_in := some ["a", "x"] } "x" (fun _ _ => none) =
      (true, Except.error { itemId := some "x" }) := by
  constructor
  · exact (getAccessControlledItem_spec { id_in := some ["a", "b"] } "x"
      (fun _ _ => some { id := "x" })).1
      (Or.inr (Or.inr (Or.inl ⟨["a", "b"], rfl, by decide⟩)))
  · exact (getAccessControlledItem_spec { id_in := some ["a", "x"] } "x"
      (fun _ _ => none)).2 (by decide) rfl

/-! ## checkFieldAccess (source lines 642-664) -/

/-- One entry of `itemsToUpdate`: the existing item (`undefined` for a
create) and the submitted data. -/
structure UpdateItem where
  existingItem : Option JObj := none
  data : JObj

/-- `checkFieldAccess(operation, itemsToUpdate, context, meta)`: for
every item, for every field whose path is in the submitted data
(`field.path in data`), evaluate
`context.getFieldAccessControlForUser(key, path, data, existingItem,
operation)` and push the path onto `restrictedFields` on denial; after
the loops, throw one aggregated access-denied error when
`restrictedFields` is non-empty.  The first component is the trace of
(item index, field path) access evaluations performed. -/
def checkFieldAccess (fieldPaths : List String) (itemsToUpdate : List UpdateItem)
    (getFieldAccess : String → JObj → Option JObj → Bool) :
    List (Nat × String) × Option AccessDeniedData :=
  let st := itemsToUpdate.enum.foldl
    (fun st p =>
      (fieldPaths.filter (fun f => p.2.data.hasOwn f)).foldl
        (fun st2 f =>
          (st2.1 ++ [(p.1, f)],
           if getFieldAccess f p.2.data p.2.existingItem then st2.2 else st2.2 ++ [f]))
        st)
    ([], [])
  (st.1, if st.2.length ≠ 0 then some { restrictedFields := some st.2 } else none)

/-- The denied field paths of one item, in field order. -/
def deniedPaths (fieldPaths : List String)
    (getFieldAccess : String → JObj → Option JObj → Bool) (it : UpdateItem) :
    List String :=
  (fieldPaths.filter (fun f => it.data.hasOwn f)).filter
    (fun f => getFieldAccess f it.data it.existingItem = false)

theorem checkFieldAccess_inner_foldl (i : Nat) (c : String → Bool)
    (fl : List String) (e : List (Nat × String)) (r : List String) :
    fl.foldl
        (fun st2 f =>
          (st2.1 ++ [(i, f)], if c f then st2.2 else st2.2 ++ [f]))
        (e, r) =
      (e ++ fl.map (fun f => (i, f)), r ++ fl.filter (fun f => c f = false)) := by
  induction fl generalizing e r with
  | nil => simp
  | cons f fl ih =>
    by_cases h : c f <;> simp [List.foldl_cons, h, ih]

theorem checkFieldAccess_outer_foldl (fieldPaths : List String)
    (getFieldAccess : String → JObj → Option JObj → Bool)
    (l : List (Nat × UpdateItem)) (e : List (Nat × String)) (r : List String) :
    l.foldl
        (fun st p =>
          (fieldPaths.filter (fun f => p.2.data.hasOwn f)).foldl
            (fun st2 f =>
              (st2.1 ++ [(p.1, f)],
               if getFieldAccess f p.2.data p.2.existingItem then st2.2
               else st2.2 ++ [f]))
            st)
        (e, r) =
      (e ++ l.flatMap
          (fun p => (fieldPaths.filter (fun f => p.2.data.hasOwn f)).map
            (fun f => (p.1, f))),
       r ++ l.flatMap (fun p => deniedPaths fieldPaths getFieldAccess p.2)) := by
  induction l generalizing e r with
  | nil => simp
  | cons p l ih =>
    rw [List.foldl_cons,
      checkFieldAccess_inner_foldl p.1
        (fun f => getFieldAccess f p.2.data p.2.existingItem), ih]
    simp [deniedPaths, List.append_assoc]

/-- Claim C6: `checkFieldAccess` evaluates field-level access for every
field present in the submitted data of every item (the evaluation trace
is exactly the item-by-item list of present fields); the error, when
raised, is a single aggregated access-denied whose `restrictedFields`
is exactly the concatenation of all denied paths across all items
(never a prefix cut off at the first denial), and no error is raised
when no path is denied. -/
theorem checkFieldAccess_spec (fieldPaths : List String)
    (itemsToUpdate : List UpdateItem)
    (getFieldAccess : String → JObj → Option JObj → Bool) :
    (checkFieldAccess fieldPaths itemsToUpdate getFieldAccess).1 =
      itemsToUpdate.enum.flatMap
        (fun p => (fieldPaths.filter (fun f => p.2.data.hasOwn f)).map
          (fun f => (p.1, f))) ∧
    (checkFieldAccess fieldPaths itemsToUpdate getFieldAccess).2 =
      (if (itemsToUpdate.flatMap (deniedPaths fieldPaths getFieldAccess)).length ≠ 0 then
        some
          { restrictedFields :=
              some (itemsToUpdate.flatMap (deniedPaths fieldPaths getFieldAccess)) }
      else none) := by
  have hfold := checkFieldAccess_outer_foldl fieldPaths getFieldAccess
    itemsToUpdate.enum [] []
  have henum : itemsToUpdate.enum.flatMap
      (fun p => deniedPaths fieldPaths getFieldAccess p.2) =
      itemsToUpdate.flatMap (deniedPaths fieldPaths getFieldAccess) := by
    have := List.enum_map_snd itemsToUpdate
    calc itemsToUpdate.enum.flatMap (fun p => deniedPaths fieldPaths getFieldAccess p.2)
        = (itemsToUpdate.enum.map Prod.snd).flatMap
            (deniedPaths fieldPaths getFieldAccess) := by
          rw [List.flatMap_map]
      _ = itemsToUpdate.flatMap (deniedPaths fieldPaths getFieldAccess) := by rw [this]
  constructor
  · show (itemsToUpdate.enum.foldl _ ([], [])).1 = _
    rw [hfold]
    simp
  · show (if (itemsToUpdate.enum.foldl _ ([], [])).2.length ≠ 0 then _ else none) = _
    rw [hfold]
    simp [henum]

/-- Witness-style concrete check for `checkFieldAccess` (no hypothesis in
`checkFieldAccess_spec`, so this is an illustration kept as an
anonymous example): two items, three restricted paths collected across
both before the single error. -/
example :
    (checkFieldAccess ["a", "b", "c"]
        [{ data := [("a", JVal.val "1"), ("b", JVal.val "2")] },
         { data := [("b", JVal.val "3"), ("c", JVal.val "4")] }]
        (fun f _ _ => f == "c")).2 =
      some { restrictedFields := some ["a", "b", "b"] } := by decide

/-! ## _itemsQuery (source lines 895-963)

`first` and `queryLimits.maxResults` range over naturals extended with
JS `Infinity`, modelled as `Option Nat` with `none` standing for
`Infinity` (both default to `Infinity`). -/

/-- The payload of `LimitsExceededError`: the limit kind and value. -/
structure LimitsExceeded where
  type : String
  limit : Nat
deriving DecidableEq, Repr

/-- What the adapter's `itemsQuery` returns: an item list, or a count
object for meta queries. -/
inductive AdapterResult where
  | items : List Item → AdapterResult
  | count : Nat → AdapterResult
deriving DecidableEq, Repr

/-- The per-request running totals on the context object. -/
structure QueryContextState where
  totalResults : Nat
  maxTotalResults : Nat
deriving DecidableEq, Repr

/-- `Math.min` on `Nat ∪ {Infinity}`. -/
def optMin : Option Nat → Option Nat → Option Nat
  | some a, some b => some (min a b)
  | some a, none => some a
  | none, b => b

/-- The `context.totalResults` accounting: the new total after adding
`len` results, and the `maxTotalResults` violation if any.  (For a
meta query the source adds the `undefined` length of the count object,
turning the total into `NaN`, which triggers no error; that branch is
modelled as performing no check.) -/
def ctxCheck (ctx : Option QueryContextState) (len : Nat) : Option LimitsExceeded :=
  match ctx with
  | some c =>
    if c.totalResults + len > c.maxTotalResults then
      some { type := "maxTotalResults", limit := c.maxTotalResults }
    else none
  | none => none

/-- `_itemsQuery(args, extra)` (access-control-agnostic): fail fast when
an explicit `first` exceeds `maxResults`; otherwise, for non-meta
queries, truncate `args.first` to `min(maxResults + 1, first)` before
calling the adapter; fail when the returned item list is longer than
`maxResults`; then fail when the request-wide running total exceeds
`context.maxTotalResults`.  The cache-hint application has no effect on
the result and is not modelled.  The first component records whether
the adapter was invoked. -/
def itemsQueryModel (maxResults first : Option Nat) (meta : Bool)
    (ctx : Option QueryContextState)
    (adapter : Option Nat → Bool → AdapterResult) :
    Bool × Except LimitsExceeded AdapterResult :=
  let firstExceeds :=
    match first, maxResults with
    | some f, some m => decide (f > m)
    | _, _ => false
  if firstExceeds then
    (false, Except.error { type := "maxResults", limit := maxResults.getD 0 })
  else
    let effFirst :=
      if meta then first else optMin (maxResults.map (fun m => m + 1)) first
    let results := adapter effFirst meta
    match results with
    | AdapterResult.items l =>
      if _h : ∃ m, maxResults = some m ∧ l.length > m then
        (true, Except.error { type := "maxResults", limit := maxResults.getD 0 })
      else
        match ctxCheck ctx l.length with
        | some e => (true, Except.error e)
        | none => (true, Except.ok results)
    | AdapterResult.count _ => (true, Except.ok results)

/-- Claim C3: with `queryLimits.maxResults = M`, an explicit `first`
greater than `M` raises `LimitsExceededError{type: 'maxResults', limit:
M}` without invoking the adapter; and otherwise, for a non-meta query
whose adapter call (issued with `first` truncated to
`min(M + 1, first)`) returns more than `M` items, the same error is
raised after the adapter was invoked. -/
theorem itemsQuery_maxResults (M : Nat) (first : Option Nat)
    (meta : Bool) (ctx : Option QueryContextState)
    (adapter : Option Nat → Bool → AdapterResult) :
    ((∃ f, first = some f ∧ f > M) →
      itemsQueryModel (some M) first meta ctx adapter =
        (false, Except.error { type := "maxResults", limit := M })) ∧
    ((∀ f, first = some f → f ≤ M) →
      ∀ l, adapter (optMin (some (M + 1)) first) false = AdapterResult.items l →
        l.length > M →
        itemsQueryModel (some M) first false ctx adapter =
          (true, Except.error { type := "maxResults", limit := M })) := by
  constructor
  · rintro ⟨f, hf, hgt⟩
    simp [itemsQueryModel, hf, hgt]
  · intro hle l hadapter hlen
    have hx : ∃ m, (some M : Option Nat) = some m ∧ l.length > m := ⟨M, rfl, hlen⟩
    cases first with
    | none =>
      simp only [optMin] at hadapter
      simp [itemsQueryModel, optMin, hadapter, hx]
      intro h
      exact absurd h (by omega)
    | some f =>
      have hf : f ≤ M := hle f rfl
      have hd : decide (f > M) = false := by
        simp only [decide_eq_false_iff_not]
        omega
      simp only [optMin] at hadapter
      simp [itemsQueryModel, optMin, hd, hadapter, hx]
      intro h
      exact absurd h (by omega)

/-- Witness for `itemsQuery_maxResults` with `M = 10`: `first: 20`
raises immediately without querying, and a query with no `first`
returning 11 adapter rows raises after querying. -/
theorem itemsQuery_maxResults_witness :
    itemsQueryModel (some 10) (some 20) false none
        (fun _ _ => AdapterResult.items []) =
      (false, Except.error { type := "maxResults", limit := 10 }) ∧
    itemsQueryModel (some 10) none false none
        (fun _ _ => AdapterResult.items (List.replicate 11 { id := "x" })) =
      (true, Except.error { type := "maxResults", limit := 10 }) := by
  constructor
  · exact (itemsQuery_maxResults 10 (some 20) false none
      (fun _ _ => AdapterResult.items [])).1 ⟨20, rfl, by omega⟩
  · exact (itemsQuery_maxResults 10 none false none
      (fun _ _ => AdapterResult.items (List.replicate 11 { id := "x" }))).2
      (fun f hf => by cases hf) (List.replicate 11 { id := "x" }) rfl (by simp)

/-! ## _validateInput (source lines 1145-1177) and _validateHook (1190-1216) -/

/-- The mutation operation a validation runs for. -/
inductive Operation where
  | create : Operation
  | update : Operation
deriving DecidableEq, Repr

/-- A field as the validation phase sees it: its path and flags, the
abstract behaviour of the field type's builtin `validateInput` (the
error messages it adds via `addFieldValidationError`, as a function of
the resolved data), and the field-level `hooks.validateInput` when
declared. -/
structure VField where
  path : String
  isRequired : Bool := false
  isRelationship : Bool := false
  validateInput : JObj → List String := fun _ => []
  hookValidateInput : Option (JObj → List String) := none

/-- The aggregated payload thrown via `_throwValidationFailure`. -/
structure ValidationFailure where
  messages : List String
deriving DecidableEq, Repr

/-- The `isRequired` filter of `_validateInput`: required,
non-relationship, and — for a create — a null-or-undefined resolved
value, or — for an update — an own key holding null or undefined. -/
def requiredFieldViolation (op : Operation) (resolvedData : JObj) (f : VField) : Bool :=
  f.isRequired && !f.isRelationship &&
    (match op with
     | Operation.create =>
       resolvedData.get f.path == JVal.undef || resolvedData.get f.path == JVal.null
     | Operation.update =>
       resolvedData.hasOwn f.path &&
         (resolvedData.get f.path == JVal.undef || resolvedData.get f.path == JVal.null))

/-- The message built for one required-field violation. -/
def requiredMsg (f : VField) : String :=
  "Required field \"" ++ f.path ++ "\" is null or undefined."

/-- `_fieldsFromObject`: the fields whose paths are keys of the object,
in key order. -/
def fieldsFromObject (fields : List VField) (obj : JObj) : List VField :=
  (obj.map (fun p => p.1)).filterMap (fun k => fields.find? (fun f => f.path == k))

/-- `_validateHook(args, fields, operation, 'validateInput')`: run every
field's builtin validator, then the declared field-level hooks, both
pushing into one error list; throw once if anything was pushed;
otherwise run the list-level hook with its own error list and throw
once if it pushed.  The first component is the trace of validators that
ran. -/
def validateHookModel (fields : List VField) (listHook : Option (JObj → List String))
    (resolvedData : JObj) : List String × Option ValidationFailure :=
  let hooked := fields.filter (fun f => f.hookValidateInput.isSome)
  let ran := fields.map (fun f => "fieldType:" ++ f.path) ++
    hooked.map (fun f => "fieldHook:" ++ f.path)
  let errs := fields.flatMap (fun f => f.validateInput resolvedData) ++
    hooked.flatMap (fun f => (f.hookValidateInput.getD (fun _ => [])) resolvedData)
  if errs.length ≠ 0 then (ran, some { messages := errs })
  else
    match listHook with
    | some h =>
      (ran ++ ["listHook"],
       if (h resolvedData).length ≠ 0 then some { messages := h resolvedData } else none)
    | none => (ran, none)

/-- `_validateInput`: the required-field check runs first and, when any
field fails it, throws immediately (no validator has run); otherwise
`_validateHook` runs on the fields present in the resolved data. -/
def validateInputModel (fields : List VField) (listHook : Option (JObj → List String))
    (op : Operation) (resolvedData : JObj) : List String × Option ValidationFailure :=
  let failing := fields.filter (requiredFieldViolation op resolvedData)
  if failing.length ≠ 0 then
    ([], some { messages := failing.map requiredMsg })
  else
    validateHookModel (fieldsFromObject fields resolvedData) listHook resolvedData

/-- Claim C4, as stated, is false on the code: the required check skips
relationship fields (`!field.isRelationship`).  A create whose resolved
data holds `null` for a required *relationship* field raises no
`ValidationFailureError` (and proceeds to the validators), contradicting
"every field with isRequired whose value ... is null or undefined
causes a ValidationFailureError". -/
theorem validateInput_claim_counterexample :
    (let f : VField := { path := "author", isRequired := true, isRelationship := true }
     f.isRequired = true ∧
     JObj.get [("author", JVal.null)] "author" = JVal.null ∧
     (validateInputModel [f] none Operation.create [("author", JVal.null)]).2 = none) := by
  exact ⟨rfl, rfl, rfl⟩

/-- Claim C4 (amended): every *non-relationship* field with `isRequired`
whose value in the resolved data is null or undefined (for an update,
only when its key is an own key of the resolved data) makes
`_validateInput` raise a single `ValidationFailureError` whose messages
are exactly those of the failing required fields, immediately and with
no custom validator (field builtin, field hook, or list hook) running. -/
theorem validateInput_required_fail_fast (fields : List VField)
    (listHook : Option (JObj → List String)) (op : Operation) (resolvedData : JObj) :
    ((fields.filter (requiredFieldViolation op resolvedData)).length ≠ 0 →
      validateInputModel fields listHook op resolvedData =
        ([], some { messages :=
          (fields.filter (requiredFieldViolation op resolvedData)).map requiredMsg })) ∧
    (∀ f ∈ fields, f.isRequired = true → f.isRelationship = false →
      (resolvedData.get f.path = JVal.undef ∨ resolvedData.get f.path = JVal.null) →
      (op = Operation.create ∨ (op = Operation.update ∧ resolvedData.hasOwn f.path = true)) →
      (validateInputModel fields listHook op resolvedData).1 = [] ∧
      ∃ v, (validateInputModel fields listHook op resolvedData).2 = some v ∧
        requiredMsg f ∈ v.messages) := by
  constructor
  · intro hne
    simp only [validateInputModel]
    rw [if_pos hne]
  · intro f hf hreq hrel hval hop
    have hviol : requiredFieldViolation op resolvedData f = true := by
      unfold requiredFieldViolation
      rcases hop with hop | ⟨hop, hown⟩
      · subst hop
        rcases hval with hval | hval <;> simp [hreq, hrel, hval]
      · subst hop
        rcases hval with hval | hval <;> simp [hreq, hrel, hown, hval]
    have hmem : f ∈ fields.filter (requiredFieldViolation op resolvedData) :=
      List.mem_filter.mpr ⟨hf, hviol⟩
    have hne : (fields.filter (requiredFieldViolation op resolvedData)).length ≠ 0 := by
      intro h0
      rw [List.length_eq_zero] at h0
      rw [h0] at hmem
      exact absurd hmem (List.not_mem_nil f)
    have heq : validateInputModel fields listHook op resolvedData =
        ([], some { messages :=
          (fields.filter (requiredFieldViolation op resolvedData)).map requiredMsg }) := by
      simp only [validateInputModel]
      rw [if_pos hne]
    refine ⟨by rw [heq], _, by rw [heq], List.mem_map.mpr ⟨f, hmem, rfl⟩⟩

/-- A concrete required field with a declared field-level validator
hook, used by the witness below. -/
def titleRequiredField : VField :=
  { path := "title", isRequired := true,
    hookValidateInput := some (fun _ => ["hook error"]) }

/-- Witness for `validateInput_required_fail_fast`: a required `title`
field resolved to null on a create, next to a configured field hook and
list hook: the failure lists `title`'s message and no validator ran. -/
theorem validateInput_required_fail_fast_witness :
    (validateInputModel [titleRequiredField]
        (some (fun _ => ["list error"])) Operation.create
        [("title", JVal.null)]).1 = [] ∧
    ∃ v, (validateInputModel [titleRequiredField]
        (some (fun _ => ["list error"])) Operation.create
        [("title", JVal.null)]).2 = some v ∧
      requiredMsg titleRequiredField ∈ v.messages := by
  exact (validateInput_required_fail_fast [titleRequiredField]
    (some (fun _ => ["list error"])) Operation.create
    [("title", JVal.null)]).2
    _ (List.mem_singleton.mpr rfl) rfl rfl (Or.inr rfl) (Or.inl rfl)

/-! ## Association-list lookup lemmas -/

theorem JObj.get_nil (k : String) : JObj.get [] k = JVal.undef := rfl

theorem JObj.hasOwn_nil (k : String) : JObj.hasOwn [] k = false := rfl

theorem JObj.get_cons (p : String × JVal) (o : JObj) (k : String) :
    JObj.get (p :: o) k = if p.1 == k then p.2 else JObj.get o k := by
  unfold JObj.get
  rw [List.find?_cons]
  by_cases hp : p.1 == k <;> simp [hp]

theorem JObj.hasOwn_cons (p : String × JVal) (o : JObj) (k : String) :
    JObj.hasOwn (p :: o) k = (p.1 == k || JObj.hasOwn o k) := by
  simp [JObj.hasOwn]

theorem JObj.get_eq_undef_of_hasOwn_eq_false (o : JObj) (k : String)
    (h : JObj.hasOwn o k = false) : JObj.get o k = JVal.undef := by
  induction o with
  | nil => rfl
  | cons p o ih =>
    rw [JObj.hasOwn_cons] at h
    rcases Bool.or_eq_false_iff.mp h with ⟨h1, h2⟩
    rw [JObj.get_cons, if_neg (by simp [h1]), ih h2]

theorem JObj.hasOwn_append (a b : JObj) (k : String) :
    JObj.hasOwn (a ++ b) k = (JObj.hasOwn a k || JObj.hasOwn b k) := by
  simp [JObj.hasOwn, List.any_append]

theorem JObj.get_append (a b : JObj) (k : String) :
    JObj.get (a ++ b) k =
      if JObj.hasOwn a k then JObj.get a k else JObj.get b k := by
  induction a with
  | nil => rw [List.nil_append, JObj.hasOwn_nil, if_neg (by simp)]
  | cons p a ih =>
    rw [List.cons_append, JObj.get_cons, JObj.get_cons, JObj.hasOwn_cons, ih]
    by_cases hp : p.1 == k <;> cases ha : JObj.hasOwn a k <;> simp [hp, ha]

theorem JObj.hasOwn_filter_key (o : JObj) (q : String → Bool) (k : String) :
    JObj.hasOwn (o.filter (fun p => q p.1)) k = (q k && JObj.hasOwn o k) := by
  induction o with
  | nil => simp [JObj.hasOwn_nil]
  | cons p o ih =>
    rw [JObj.hasOwn_cons, List.filter_cons]
    by_cases hp : p.1 == k
    · have hk : p.1 = k := by simpa using hp
      by_cases hq : q p.1
      · rw [if_pos (by simpa using hq), JObj.hasOwn_cons, ih]
        simp [hp, hk ▸ hq]
      · rw [if_neg (by simpa using hq), ih]
        have hqk : q k = false := by rw [← hk]; exact Bool.eq_false_iff.mpr hq
        simp [hqk]
    · by_cases hq : q p.1
      · rw [if_pos (by simpa using hq), JObj.hasOwn_cons, ih]
        cases hqk : q k <;> simp [hp, hqk]
      · rw [if_neg (by simpa using hq), ih]
        cases hqk : q k <;> simp [hp, hqk]

theorem JObj.get_filter_key (o : JObj) (q : String → Bool) (k : String) :
    JObj.get (o.filter (fun p => q p.1)) k =
      if q k then JObj.get o k else JVal.undef := by
  induction o with
  | nil => simp [JObj.get_nil]
  | cons p o ih =>
    rw [List.filter_cons]
    by_cases hq : (q p.1) = true
    · rw [if_pos (by simpa using hq), JObj.get_cons]
      by_cases hp : (p.1 == k) = true
      · have hk : p.1 = k := by simpa using hp
        rw [if_pos hp, JObj.get_cons, if_pos hp, if_pos (hk ▸ hq)]
      · rw [if_neg (by simp [hp]), ih, JObj.get_cons]
        by_cases hqk : (q k) = true
        · rw [if_pos hqk, if_pos hqk, if_neg (by simp [hp])]
        · rw [if_neg hqk, if_neg hqk]
    · rw [if_neg (by simpa using hq), ih]
      by_cases hqk : (q k) = true
      · have hp : (p.1 == k) = false := by
          simp only [beq_eq_false_iff_ne, ne_eq]
          intro hk
          rw [hk] at hq
          exact hq hqk
        rw [if_pos hqk, if_pos hqk, JObj.get_cons, if_neg (by simp [hp])]
      · rw [if_neg hqk, if_neg hqk]

theorem JObj.hasOwn_merge (a b : JObj) (k : String) :
    JObj.hasOwn (JObj.merge a b) k = (JObj.hasOwn a k || JObj.hasOwn b k) := by
  unfold JObj.merge
  rw [JObj.hasOwn_append, JObj.hasOwn_filter_key a (fun s => ¬ JObj.hasOwn b s) k]
  cases hb : JObj.hasOwn b k <;> cases ha : JObj.hasOwn a k <;> simp [hb, ha]

theorem JObj.get_merge (a b : JObj) (k : String) :
    JObj.get (JObj.merge a b) k =
      if JObj.hasOwn b k then JObj.get b k else JObj.get a k := by
  unfold JObj.merge
  rw [JObj.get_append, JObj.hasOwn_filter_key a (fun s => ¬ JObj.hasOwn b s) k,
    JObj.get_filter_key a (fun s => ¬ JObj.hasOwn b s) k]
  cases hb : JObj.hasOwn b k <;> cases ha : JObj.hasOwn a k
  · rw [JObj.get_eq_undef_of_hasOwn_eq_false a k ha,
      JObj.get_eq_undef_of_hasOwn_eq_false b k hb]
    simp
  · simp [hb, ha]
  · simp [hb, ha]
  · simp [hb, ha]

theorem JObj.hasOwn_eq_false_of_not_mem_keys (o : JObj) (k : String)
    (h : k ∉ o.map Prod.fst) : JObj.hasOwn o k = false := by
  simp only [JObj.hasOwn, List.any_eq_false]
  intro p hp
  simp only [beq_iff_eq]
  intro hpk
  exact h (hpk ▸ List.mem_map_of_mem Prod.fst hp)

theorem JObj.get_omitUndef (o : JObj) (k : String)
    (h : (o.map Prod.fst).Nodup) :
    JObj.get (JObj.omitUndef o) k =
      if JObj.get o k = JVal.undef then JVal.undef else JObj.get o k := by
  induction o with
  | nil => simp [JObj.omitUndef, JObj.get_nil]
  | cons p o ih =>
    have htail : (o.map Prod.fst).Nodup := (List.nodup_cons.mp (by simpa using h)).2
    have hnotin : p.1 ∉ o.map Prod.fst := (List.nodup_cons.mp (by simpa using h)).1
    unfold JObj.omitUndef at ih ⊢
    rw [List.filter_cons]
    by_cases hp : p.1 == k
    · have hk : p.1 = k := by simpa using hp
      have hown : JObj.hasOwn o k = false :=
        JObj.hasOwn_eq_false_of_not_mem_keys o k (hk ▸ hnotin)
      have hgo : JObj.get o k = JVal.undef :=
        JObj.get_eq_undef_of_hasOwn_eq_false o k hown
      by_cases hu : p.2 = JVal.undef
      · rw [if_neg (by simpa using hu), ih htail, JObj.get_cons, if_pos hp, hgo, hu]
      · rw [if_pos (by simpa using hu), JObj.get_cons, if_pos hp,
          JObj.get_cons, if_pos hp, if_neg hu]
    · have e1 : JObj.get (p :: o) k = JObj.get o k := by
        rw [JObj.get_cons, if_neg (by simp [hp])]
      by_cases hu : p.2 = JVal.undef
      · rw [if_neg (by simpa using hu), ih htail, e1]
      · rw [if_pos (by simpa using hu), JObj.get_cons, if_neg (by simp [hp]),
          ih htail, e1]

theorem JObj.hasOwn_omitUndef (o : JObj) (k : String)
    (h : (o.map Prod.fst).Nodup) :
    JObj.hasOwn (JObj.omitUndef o) k =
      (JObj.hasOwn o k && !(JObj.get o k == JVal.undef)) := by
  induction o with
  | nil => simp [JObj.omitUndef, JObj.hasOwn_nil]
  | cons p o ih =>
    have htail : (o.map Prod.fst).Nodup := (List.nodup_cons.mp (by simpa using h)).2
    have hnotin : p.1 ∉ o.map Prod.fst := (List.nodup_cons.mp (by simpa using h)).1
    unfold JObj.omitUndef at ih ⊢
    rw [List.filter_cons]
    by_cases hp : p.1 == k
    · have hk : p.1 = k := by simpa using hp
      have hown : JObj.hasOwn o k = false :=
        JObj.hasOwn_eq_false_of_not_mem_keys o k (hk ▸ hnotin)
      by_cases hu : p.2 = JVal.undef
      · rw [if_neg (by simpa using hu), ih htail, JObj.hasOwn_cons,
          JObj.get_cons, if_pos hp, hown, hu]
        simp
      · rw [if_pos (by simpa using hu), JObj.hasOwn_cons, JObj.hasOwn_cons,
          JObj.get_cons, if_pos hp]
        simp [hp, hu]
    · have e1 : JObj.get (p :: o) k = JObj.get o k := by
        rw [JObj.get_cons, if_neg (by simp [hp])]
      have e2 : JObj.hasOwn (p :: o) k = JObj.hasOwn o k := by
        rw [JObj.hasOwn_cons]
        simp [hp]
      by_cases hu : p.2 = JVal.undef
      · rw [if_neg (by simpa using hu), ih htail, e1, e2]
      · rw [if_pos (by simpa using hu), JObj.hasOwn_cons, e1, e2,
          show (p.1 == k) = false from by simp [hp], Bool.false_or, ih htail]

theorem JObj.get_map_keyed {α : Type} (l : List α) (key : α → String) (g : α → JVal)
    (h : (l.map key).Nodup) {f : α} (hf : f ∈ l) :
    JObj.get (l.map (fun x => (key x, g x))) (key f) = g f := by
  induction l with
  | nil => cases hf
  | cons a l ih =>
    rw [List.map_cons, JObj.get_cons]
    rcases List.mem_cons.mp hf with rfl | hfl
    · rw [if_pos (by simp)]
    · have hne : key a ≠ key f := by
        intro he
        have hnotin : key a ∉ l.map key := (List.nodup_cons.mp (by simpa using h)).1
        exact hnotin (he ▸ List.mem_map_of_mem key hfl)
      rw [if_neg (by simp [hne])]
      exact ih (List.nodup_cons.mp (by simpa using h)).2 hfl

theorem JObj.hasOwn_map_keyed {α : Type} (l : List α) (key : α → String)
    (g : α → JVal) (k : String) :
    JObj.hasOwn (l.map (fun x => (key x, g x))) k = l.any (fun x => key x == k) := by
  induction l with
  | nil => rfl
  | cons a l ih => rw [List.map_cons, JObj.hasOwn_cons, List.any_cons, ih]

theorem JObj.keys_omitUndef_nodup (o : JObj) (h : (o.map Prod.fst).Nodup) :
    ((JObj.omitUndef o).map Prod.fst).Nodup :=
  ((List.filter_sublist o).map Prod.fst).nodup h

theorem JObj.hasOwn_iff_mem_keys (o : JObj) (k : String) :
    JObj.hasOwn o k = true ↔ k ∈ o.map Prod.fst := by
  simp only [JObj.hasOwn, List.any_eq_true, List.mem_map]
  constructor
  · rintro ⟨p, hp, he⟩
    exact ⟨p, hp, by simpa using (beq_iff_eq.mp he)⟩
  · rintro ⟨p, hp, he⟩
    exact ⟨p, hp, by simp [he]⟩

theorem JObj.keys_merge_nodup (a b : JObj) (ha : (a.map Prod.fst).Nodup)
    (hb : (b.map Prod.fst).Nodup) :
    ((JObj.merge a b).map Prod.fst).Nodup := by
  unfold JObj.merge
  rw [List.map_append, List.nodup_append]
  refine ⟨((List.filter_sublist a).map Prod.fst).nodup ha, hb, ?_⟩
  intro k hk1 hk2
  rcases List.mem_map.mp hk1 with ⟨p, hp, hpe⟩
  have hpred := (List.mem_filter.mp hp).2
  have : JObj.hasOwn b p.1 = false := by
    simpa using hpred
  rw [hpe] at this
  exact absurd ((JObj.hasOwn_iff_mem_keys b k).mpr hk2) (by simp [this])

/-! ## _resolveInput (source lines 1097-1143) -/

/-- A field as the input-resolution phase sees it: its path, the field
type's `resolveInput` implementation (run on every field, a function of
the incoming resolved data), and the schema-level field hook
`hooks.resolveInput` when declared (a function of the data produced by
the field-type phase). -/
structure RField where
  path : String
  resolveInput : JObj → JVal
  hookResolveInput : Option (JObj → JVal) := none

/-- Phase 1: `resolvedData = await this._mapToFields(this.fields, field
=> field.resolveInput(args))`, keyed by field path, then `omitBy`
`undefined`. -/
def resolveInputPhase1 (fields : List RField) (resolvedData : JObj) : JObj :=
  JObj.omitUndef (fields.map (fun f => (f.path, f.resolveInput resolvedData)))

/-- The object produced by the field-level hooks pass (only fields with
a declared hook contribute a key). -/
def hookResults (fields : List RField) (d1 : JObj) : JObj :=
  (fields.filter (fun f => f.hookResolveInput.isSome)).map
    (fun f => (f.path, (f.hookResolveInput.getD (fun _ => JVal.undef)) d1))

/-- Phase 2: spread-merge the hook results over the phase-1 data, then
`omitBy` `undefined` again. -/
def resolveInputPhase2 (fields : List RField) (d1 : JObj) : JObj :=
  JObj.omitUndef (JObj.merge d1 (hookResults fields d1))

/-- `_resolveInput`: field-type phase, field-hook phase, then — when a
list-level `hooks.resolveInput` is declared — its result *replaces* the
resolved data (the source only checks it is an object; it does not
`omitBy` `undefined` on it). -/
def resolveInputModel (fields : List RField) (listHook : Option (JObj → JObj))
    (resolvedData : JObj) : JObj :=
  let d2 := resolveInputPhase2 fields (resolveInputPhase1 fields resolvedData)
  match listHook with
  | some h => h d2
  | none => d2

/-- Claim C5, as stated, is false on the code: the list-level
`resolveInput` hook's result is returned as-is, with no `omitBy` of
`undefined` values (the two strips happen only after the field-type and
field-hook phases).  A list hook returning `{a: undefined}` leaves the
key `a` present with value `undefined` in the resolved data, so the
undefined value was not stripped from that phase's result. -/
theorem resolveInput_claim_counterexample :
    resolveInputModel [] (some (fun _ => [("a", JVal.undef)])) [] =
      [("a", JVal.undef)] ∧
    JObj.hasOwn [("a", JVal.undef)] "a" = true ∧
    JObj.get [("a", JVal.undef)] "a" = JVal.undef := by
  exact ⟨rfl, rfl, rfl⟩

/-- Claim C5 (amended): in the field-type phase and the field-level hook
phase, `undefined` values are stripped after merging — so the data
after those phases never holds an `undefined` value; a field-type
implementation or field-level hook returning `undefined` leaves the
field's key unset, while an explicit `null` is preserved and remains
distinct from `undefined` — whereas the list-level hook's result
replaces the resolved data wholesale without stripping. -/
theorem resolveInput_strip_spec (fields : List RField)
    (data : JObj) (hnodup : (fields.map (fun f => f.path)).Nodup) :
    (∀ p ∈ resolveInputModel fields none data, p.2 ≠ JVal.undef) ∧
    (∀ f ∈ fields, f.hookResolveInput = none →
      f.resolveInput data = JVal.undef →
      JObj.hasOwn (resolveInputModel fields none data) f.path = false) ∧
    (∀ f ∈ fields, f.hookResolveInput = none →
      f.resolveInput data = JVal.null →
      JObj.get (resolveInputModel fields none data) f.path = JVal.null) ∧
    (∀ f ∈ fields, ∀ hk, f.hookResolveInput = some hk →
      hk (resolveInputPhase1 fields data) = JVal.undef →
      JObj.hasOwn (resolveInputModel fields none data) f.path = false) ∧
    (∀ f ∈ fields, ∀ hk, f.hookResolveInput = some hk →
      hk (resolveInputPhase1 fields data) = JVal.null →
      JObj.get (resolveInputModel fields none data) f.path = JVal.null) ∧
    (∀ lh, resolveInputModel fields (some lh) data =
      lh (resolveInputModel fields none data)) := by
  classical
  set m0 : JObj := fields.map (fun f => (f.path, f.resolveInput data)) with hm0
  have hm0keys : (m0.map Prod.fst).Nodup := by
    rw [hm0, List.map_map]
    exact hnodup
  set d1 : JObj := resolveInputPhase1 fields data with hd1
  have hd1keys : (d1.map Prod.fst).Nodup := JObj.keys_omitUndef_nodup m0 hm0keys
  set hres : JObj := hookResults fields d1 with hhres
  have hhooked : (fields.filter (fun f => f.hookResolveInput.isSome)).map
      (fun f => f.path) |>.Nodup :=
    (((List.filter_sublist fields).map (fun f => f.path)).nodup hnodup)
  have hhreskeys : (hres.map Prod.fst).Nodup := by
    rw [hhres]
    unfold hookResults
    rw [List.map_map]
    exact hhooked
  set m : JObj := JObj.merge d1 hres with hm
  have hmkeys : (m.map Prod.fst).Nodup := JObj.keys_merge_nodup d1 hres hd1keys hhreskeys
  have hmodel : resolveInputModel fields none data = JObj.omitUndef m := rfl
  have hinj := List.inj_on_of_nodup_map (f := fun f : RField => f.path) hnodup
  refine ⟨?_, ?_, ?_, ?_, ?_, fun lh => rfl⟩
  · intro p hp
    rw [hmodel] at hp
    have := (List.mem_filter.mp hp).2
    simpa using this
  · intro f hf hnohook hundef
    have hresown : JObj.hasOwn hres f.path = false := by
      apply JObj.hasOwn_eq_false_of_not_mem_keys
      intro hmem
      rw [hhres] at hmem
      unfold hookResults at hmem
      rw [List.map_map] at hmem
      rcases List.mem_map.mp hmem with ⟨g, hg, hge⟩
      have hgf : g = f := hinj (List.mem_filter.mp hg).1 hf hge
      have := (List.mem_filter.mp hg).2
      rw [hgf, hnohook] at this
      simp at this
    have hgm0 : JObj.get m0 f.path = JVal.undef := by
      rw [hm0]
      rw [JObj.get_map_keyed fields (fun f => f.path) (fun f => f.resolveInput data)
        hnodup hf]
      exact hundef
    have hgd1 : JObj.get d1 f.path = JVal.undef := by
      rw [hd1]
      unfold resolveInputPhase1
      rw [JObj.get_omitUndef m0 f.path hm0keys, hgm0]
      simp
    have hgm : JObj.get m f.path = JVal.undef := by
      rw [hm, JObj.get_merge, hresown]
      simpa using hgd1
    rw [hmodel, JObj.hasOwn_omitUndef m f.path hmkeys, hgm]
    simp
  · intro f hf hnohook hnull
    have hresown : JObj.hasOwn hres f.path = false := by
      apply JObj.hasOwn_eq_false_of_not_mem_keys
      intro hmem
      rw [hhres] at hmem
      unfold hookResults at hmem
      rw [List.map_map] at hmem
      rcases List.mem_map.mp hmem with ⟨g, hg, hge⟩
      have hgf : g = f := hinj (List.mem_filter.mp hg).1 hf hge
      have := (List.mem_filter.mp hg).2
      rw [hgf, hnohook] at this
      simp at this
    have hgm0 : JObj.get m0 f.path = JVal.null := by
      rw [hm0]
      rw [JObj.get_map_keyed fields (fun f => f.path) (fun f => f.resolveInput data)
        hnodup hf]
      exact hnull
    have hgd1 : JObj.get d1 f.path = JVal.null := by
      rw [hd1]
      unfold resolveInputPhase1
      rw [JObj.get_omitUndef m0 f.path hm0keys, hgm0]
      simp
    have hgm : JObj.get m f.path = JVal.null := by
      rw [hm, JObj.get_merge, hresown]
      simpa using hgd1
    rw [hmodel, JObj.get_omitUndef m f.path hmkeys, hgm]
    simp
  · intro f hf hk hhook hundef
    have hfh : f ∈ fields.filter (fun f => f.hookResolveInput.isSome) :=
      List.mem_filter.mpr ⟨hf, by simp [hhook]⟩
    have hghres : JObj.get hres f.path = JVal.undef := by
      rw [hhres]
      unfold hookResults
      rw [JObj.get_map_keyed _ (fun f => f.path)
        (fun f => (f.hookResolveInput.getD (fun _ => JVal.undef)) d1) hhooked hfh]
      rw [hhook]
      exact hundef
    have hresown : JObj.hasOwn hres f.path = true := by
      apply (JObj.hasOwn_iff_mem_keys hres f.path).mpr
      rw [hhres]
      unfold hookResults
      rw [List.map_map]
      exact List.mem_map_of_mem _ hfh
    have hgm : JObj.get m f.path = JVal.undef := by
      rw [hm, JObj.get_merge, hresown, if_pos rfl]
      exact hghres
    rw [hmodel, JObj.hasOwn_omitUndef m f.path hmkeys, hgm]
    simp
  · intro f hf hk hhook hnull
    have hfh : f ∈ fields.filter (fun f => f.hookResolveInput.isSome) :=
      List.mem_filter.mpr ⟨hf, by simp [hhook]⟩
    have hghres : JObj.get hres f.path = JVal.null := by
      rw [hhres]
      unfold hookResults
      rw [JObj.get_map_keyed _ (fun f => f.path)
        (fun f => (f.hookResolveInput.getD (fun _ => JVal.undef)) d1) hhooked hfh]
      rw [hhook]
      exact hnull
    have hresown : JObj.hasOwn hres f.path = true := by
      apply (JObj.hasOwn_iff_mem_keys hres f.path).mpr
      rw [hhres]
      unfold hookResults
      rw [List.map_map]
      exact List.mem_map_of_mem _ hfh
    have hgm : JObj.get m f.path = JVal.null := by
      rw [hm, JObj.get_merge, hresown, if_pos rfl]
      exact hghres
    rw [hmodel, JObj.get_omitUndef m f.path hmkeys, hgm]
    simp

/-- A field whose type implementation resolves to an explicit null, used
by the witness below. -/
def nullField : RField := { path := "a", resolveInput := fun _ => JVal.null }

/-- A field whose field-level hook returns undefined, used by the
witness below. -/
def undefHookField : RField :=
  { path := "b", resolveInput := fun _ => JVal.val "x",
    hookResolveInput := some (fun _ => JVal.undef) }

/-- Witness for `resolveInput_strip_spec`: with one field resolving to
null and one whose hook returns undefined, the resolved data keeps the
null and drops the hooked key. -/
theorem resolveInput_strip_spec_witness :
    JObj.get (resolveInputModel [nullField, undefHookField] none []) "a" = JVal.null ∧
    JObj.hasOwn (resolveInputModel [nullField, undefHookField] none []) "b" = false := by
  have h := resolveInput_strip_spec [nullField, undefHookField] [] (by decide)
  exact ⟨h.2.2.1 nullField (by simp) rfl rfl,
    h.2.2.2.1 undefHookField (by simp) (fun _ => JVal.undef) rfl rfl⟩

/-! ## _resolveRelationship (source lines 1030-1066)

The to-many combination the List performs over the
`{create, connect, disconnect, currentValue}` sets handed back by the
field's `resolveNestedOperations`.  Ids are JS strings; `filter(id =>
!!id)` keeps truthy (non-empty) ids. -/

/-- The `field.many` branch of `_resolveRelationship`:
`[...currentValue.filter(id => !disconnect.includes(id)), ...connect,
...create].filter(id => !!id)`. -/
def resolveManyRelationship (currentValue disconnect connect create : List String) :
    List String :=
  ((currentValue.filter (fun i => ¬ disconnect.contains i)) ++ connect ++ create).filter
    (fun i => i ≠ "")

/-- A value inside a relationship-input object: the `disconnectAll`
boolean, or an id list (for `create`, the ids the created items will
receive). -/
inductive RelVal where
  | bool : Bool → RelVal
  | ids : List String → RelVal
deriving DecidableEq, Repr

/-- A relationship input object, as an ordered key/value list. -/
abbrev RelObj := List (String × RelVal)

/-- Boolean property read on a relationship input (false when absent or
not a boolean). -/
def RelObj.getBool (o : RelObj) (k : String) : Bool :=
  match o.find? (fun p => p.1 == k) with
  | some (_, RelVal.bool b) => b
  | _ => false

/-- Id-list property read on a relationship input (empty when absent or
not a list). -/
def RelObj.getIds (o : RelObj) (k : String) : List String :=
  match o.find? (fun p => p.1 == k) with
  | some (_, RelVal.ids l) => l
  | _ => []

/-- The `{create, connect, disconnect, currentValue}` sets handed to the
List by the field. -/
structure NestedOps where
  create : List String
  connect : List String
  disconnect : List String
  currentValue : List String
deriving DecidableEq, Repr

/-- Modelled from the spec: `resolveNestedOperations` of the to-many
Relationship field lives in `@k5js/fields` and is not under `src/`;
per the spec's fixed ordering "disconnect-all → disconnect → create →
connect", `disconnectAll: true` replaces the disconnect set with the
whole current value, and the `create` entries yield the ids of the
newly created items.  The object is read purely by key lookup, so the
order of keys in the input cannot influence the result. -/
def resolveNestedOperationsMany (input : RelObj) (currentValue : List String) :
    NestedOps :=
  { create := RelObj.getIds input "create"
    connect := RelObj.getIds input "connect"
    disconnect :=
      if RelObj.getBool input "disconnectAll" then currentValue
      else RelObj.getIds input "disconnect"
    currentValue := currentValue }

/-- A to-many relationship field's resolved value: the field's nested
operations fed into the List's combination. -/
def resolveManyField (input : RelObj) (currentValue : List String) : List String :=
  let ops := resolveNestedOperationsMany input currentValue
  resolveManyRelationship ops.currentValue ops.disconnect ops.connect ops.create

theorem list_contains_iff {α : Type} [BEq α] [LawfulBEq α] {l : List α} {a : α} :
    l.contains a = true ↔ a ∈ l := List.elem_iff

theorem mem_resolveManyRelationship (currentValue disconnect connect create : List String)
    (x : String) :
    x ∈ resolveManyRelationship currentValue disconnect connect create ↔
      (x ≠ "" ∧ ((x ∈ currentValue ∧ x ∉ disconnect) ∨ x ∈ connect ∨ x ∈ create)) := by
  unfold resolveManyRelationship
  simp only [List.mem_filter, List.mem_append, decide_eq_true_eq, list_contains_iff]
  tauto

/-- Claim C2: the resolved value of a to-many relationship holds exactly
the non-falsy ids that are either existing-and-not-disconnected,
connected, or newly created; the input object is read only through key
lookups, so two inputs with the same `disconnectAll` / `disconnect` /
`connect` / `create` values resolve identically whatever the key order;
and under `disconnectAll: true` every existing id not re-connected and
not re-created (such as `b`) is excluded, while connected and created
non-falsy ids (such as `c` and `d`) are included. -/
theorem resolveRelationship_many_spec
    (currentValue disconnect connect create : List String) (input input2 : RelObj) :
    (∀ x, x ∈ resolveManyRelationship currentValue disconnect connect create ↔
      (x ≠ "" ∧ ((x ∈ currentValue ∧ x ∉ disconnect) ∨ x ∈ connect ∨ x ∈ create))) ∧
    (RelObj.getBool input "disconnectAll" = RelObj.getBool input2 "disconnectAll" →
      RelObj.getIds input "disconnect" = RelObj.getIds input2 "disconnect" →
      RelObj.getIds input "connect" = RelObj.getIds input2 "connect" →
      RelObj.getIds input "create" = RelObj.getIds input2 "create" →
      resolveManyField input currentValue = resolveManyField input2 currentValue) ∧
    (RelObj.getBool input "disconnectAll" = true →
      ∀ b ∈ currentValue, b ∉ RelObj.getIds input "connect" →
        b ∉ RelObj.getIds input "create" →
        b ∉ resolveManyField input currentValue) ∧
    (∀ x ∈ RelObj.getIds input "connect", x ≠ "" →
      x ∈ resolveManyField input currentValue) ∧
    (∀ x ∈ RelObj.getIds input "create", x ≠ "" →
      x ∈ resolveManyField input currentValue) := by
  refine ⟨mem_resolveManyRelationship currentValue disconnect connect create, ?_, ?_, ?_, ?_⟩
  · intro h1 h2 h3 h4
    unfold resolveManyField resolveNestedOperationsMany
    rw [h1, h2, h3, h4]
  · intro hdall b hb hnc hncr hmem
    unfold resolveManyField resolveNestedOperationsMany at hmem
    rw [hdall] at hmem
    simp only [if_pos] at hmem
    rcases (mem_resolveManyRelationship _ _ _ _ b).mp hmem with ⟨_, h⟩
    rcases h with ⟨hm, hd⟩ | hc | hcr
    · exact hd hb
    · exact hnc hc
    · exact hncr hcr
  · intro x hx hne
    unfold resolveManyField resolveNestedOperationsMany
    exact (mem_resolveManyRelationship _ _ _ _ x).mpr ⟨hne, Or.inr (Or.inl hx)⟩
  · intro x hx hne
    unfold resolveManyField resolveNestedOperationsMany
    exact (mem_resolveManyRelationship _ _ _ _ x).mpr ⟨hne, Or.inr (Or.inr hx)⟩

/-- The spec's scenario input `{disconnectAll: true, disconnect: [b],
create: [c], connect: [d]}`. -/
def relScenarioInput : RelObj :=
  [("disconnectAll", RelVal.bool true), ("disconnect", RelVal.ids ["b"]),
   ("create", RelVal.ids ["c"]), ("connect", RelVal.ids ["d"])]

/-- The same scenario with the keys in reverse order. -/
def relScenarioInputReordered : RelObj :=
  [("connect", RelVal.ids ["d"]), ("create", RelVal.ids ["c"]),
   ("disconnect", RelVal.ids ["b"]), ("disconnectAll", RelVal.bool true)]

/-- Witness for `resolveRelationship_many_spec` on the spec's scenario
with existing ids `[a, b]`: both key orders resolve identically, `b` is
excluded, `c` and `d` are included. -/
theorem resolveRelationship_many_spec_witness :
    resolveManyField relScenarioInput ["a", "b"] =
      resolveManyField relScenarioInputReordered ["a", "b"] ∧
    "b" ∉ resolveManyField relScenarioInput ["a", "b"] ∧
    "c" ∈ resolveManyField relScenarioInput ["a", "b"] ∧
    "d" ∈ resolveManyField relScenarioInput ["a", "b"] := by
  have h := resolveRelationship_many_spec ["a", "b"] [] [] []
    relScenarioInput relScenarioInputReordered
  refine ⟨h.2.1 (by decide) (by decide) (by decide) (by decide), ?_, ?_, ?_⟩
  · exact h.2.2.1 (by decide) "b" (by decide) (by decide) (by decide)
  · exact h.2.2.2.2 "c" (by decide) (by decide)
  · exact h.2.2.2.1 "d" (by decide) (by decide)

/-! ## _nestedMutation (source lines 1274-1306) -/

/-- The shared per-root-mutation state.  Only the after-change stack is
relevant here (the backlink queues and transaction placeholder do not
affect hook ordering).  The JS array is pushed at the end and popped
from the end; the list models the stack with its head as the top, so
`push` is cons and draining executes head first. -/
structure MutationState where
  afterChangeStack : List String
deriving DecidableEq, Repr

/-- A mutation call's nested shape: the nested mutations its body
triggers (run sequentially, each through `_nestedMutation` with the
shared state), and the label of the after-hook the body returns. -/
inductive MTree where
  | node : List MTree → String → MTree

mutual

/-- `_nestedMutation(mutationState, context, mutation)`: a root call
(no incoming state) allocates a fresh `MutationState`; the body runs
(nested mutations thread the same state by reference); the body's
after-hook is pushed onto the shared stack, never run inline; only the
root call then drains the stack with repeated `pop()()`.  Returns the
state handed back and the hooks executed by this call, in execution
order. -/
def nestedMutation : Option MutationState → MTree → MutationState × List String
  | ms, MTree.node children hook =>
    let isRoot := ms.isNone
    let st0 := ms.getD { afterChangeStack := [] }
    let st1 := runNestedChildren st0 children
    let st2 : MutationState := { afterChangeStack := hook :: st1.afterChangeStack }
    if isRoot then ({ afterChangeStack := [] }, st2.afterChangeStack)
    else (st2, [])

/-- The body's nested mutations, run in order on the shared state. -/
def runNestedChildren : MutationState → List MTree → MutationState
  | st, [] => st
  | st, c :: cs => runNestedChildren (nestedMutation (some st) c).1 cs

end

mutual

/-- The order in which after-hooks are pushed: nested mutations push
theirs while the body runs, the own hook is pushed after the body —
a post-order traversal. -/
def postorderHooks : MTree → List String
  | MTree.node children hook => postorderChildren children ++ [hook]

/-- Push order across a list of sibling nested mutations. -/
def postorderChildren : List MTree → List String
  | [] => []
  | c :: cs => postorderHooks c ++ postorderChildren cs

end

mutual

theorem nestedMutation_some (t : MTree) (st : MutationState) :
    nestedMutation (some st) t =
      ({ afterChangeStack := (postorderHooks t).reverse ++ st.afterChangeStack }, []) :=
  match t with
  | MTree.node children hook => by
    simp only [nestedMutation, Option.isNone_some, Option.getD_some,
      Bool.false_eq_true, if_false, runNestedChildren_eq children st,
      postorderHooks, List.reverse_append, List.reverse_cons, List.reverse_nil,
      List.nil_append, List.cons_append, List.append_assoc]

theorem runNestedChildren_eq (l : List MTree) (st : MutationState) :
    runNestedChildren st l =
      { afterChangeStack := (postorderChildren l).reverse ++ st.afterChangeStack } :=
  match l with
  | [] => by
    unfold runNestedChildren
    simp [postorderChildren]
  | c :: cs => by
    unfold runNestedChildren
    rw [nestedMutation_some c st, runNestedChildren_eq cs _]
    simp [postorderChildren, List.reverse_append, List.append_assoc]

end

theorem nestedMutation_root (t : MTree) :
    nestedMutation none t =
      ({ afterChangeStack := [] }, (postorderHooks t).reverse) :=
  match t with
  | MTree.node children hook => by
    simp only [nestedMutation, Option.isNone_none, Option.getD_none, if_true,
      runNestedChildren_eq children { afterChangeStack := [] },
      postorderHooks, List.reverse_append, List.reverse_cons, List.reverse_nil,
      List.nil_append, List.cons_append, List.append_nil]

/-- Claim C1: every non-root `_nestedMutation` executes no hook — it
only pushes its subtree's after-hooks onto the shared stack
(children's hooks first, its own last, i.e. the post-order push order,
reversed onto the stack top); only the root call drains the stack,
executing the hooks in exactly the reverse of the push order (last
pushed, first executed); in particular a create of parent `P` that
nested-creates child `C` pushes `C`'s after-hook before `P`'s, and root
completion executes `P`'s after-hook before `C`'s. -/
theorem nestedMutation_afterHooks_lifo :
    (∀ (t : MTree) (st : MutationState),
      nestedMutation (some st) t =
        ({ afterChangeStack := (postorderHooks t).reverse ++ st.afterChangeStack }, [])) ∧
    (∀ t : MTree,
      nestedMutation none t = ({ afterChangeStack := [] }, (postorderHooks t).reverse)) ∧
    postorderHooks (MTree.node [MTree.node [] "C"] "P") = ["C", "P"] ∧
    nestedMutation none (MTree.node [MTree.node [] "C"] "P") =
      ({ afterChangeStack := [] }, ["P", "C"]) := by
  refine ⟨nestedMutation_some, nestedMutation_root, ?_, ?_⟩
  · simp [postorderHooks, postorderChildren]
  · rw [nestedMutation_root]
    simp [postorderHooks, postorderChildren]

end K5
